import Mathlib

/-!
Verification of the Nexus-Flow core engines against their specification.

The development shallowly embeds the two pure cores of the repository:

* the Log Classification Engine of `src/log_analysis/nexus_log_analyzer.py`
  (`evaluate_log_entry`, `parse_log_entries`, `parse_redscript_log`,
  `process_logs`), and
* the Load Order Resolution Engine, present twice: in
  `src/load_order_sorter/load_order_sorter.py` and in
  `src/log_analysis/nexus_log_remover.py`
  (both named `apply_custom_mod_order_rules`).

Modelling conventions:

* A Python `str` is a Lean `String`; only code points matter, and the
  character classes (`\d`, `\s`, `\w`, `str.strip`, case folding) are
  modelled at ASCII precision, which covers every constant and every
  classification rule appearing in the source.
* A file is a finite sequence of lines.  Python's file iteration yields
  each line with its trailing `"\n"`; the embedding stores lines without
  the terminator and joins buffered lines with `"\n"` (`joinLines`).
  Since every use in the source is `startswith`, `strip`, or
  `"".join(...).strip()`, the two representations agree.
* A Python `set` is a duplicate-free `List String`; `set(xs)` is
  `xs.dedup`.  Membership, removal and `sorted(...)` are the only
  operations performed on sets, and the theorem for claim C7 proves that
  the resolver's output is independent of the chosen enumeration of the
  set, which is exactly the absence of hash-order nondeterminism.
* A Python `dict` (the rules mapping) is an association list in
  insertion order; CPython dictionaries preserve insertion order and
  have pairwise distinct keys.
-/

/-- ASCII model of Python `str.strip()` whitespace and of the regex
class `\s`: space, tab, newline, carriage return, vertical tab, form
feed. -/
def pyIsSpace (c : Char) : Bool :=
  c = ' ' || c = '\t' || c = '\n' || c = '\r' || c = Char.ofNat 11 || c = Char.ofNat 12

/-- Python `str.strip()`: drop leading and trailing whitespace. -/
def pyStrip (s : String) : String :=
  ⟨((s.data.dropWhile pyIsSpace).reverse.dropWhile pyIsSpace).reverse⟩

/-- Python `str.startswith(pat)`. -/
def pyStartsWith (s pat : String) : Bool :=
  List.isPrefixOf pat.data s.data

/-- Helper for substring search over character lists. -/
def strContainsAux (pat : List Char) : List Char → Bool
  | [] => pat.isEmpty
  | c :: cs => List.isPrefixOf pat (c :: cs) || strContainsAux pat cs

/-- Python `pat in s` substring containment. -/
def strContains (s pat : String) : Bool :=
  strContainsAux pat.data s.data

/-- The buffered lines of one log entry, joined.  In the source the
buffer holds raw lines with their `"\n"` terminators and the entry text
is `"".join(lines)`; with terminator-free lines this is a `"\n"`
intercalation. -/
def joinLines : List String → String
  | [] => ""
  | [l] => l
  | l :: ls => l ++ "\n" ++ joinLines ls

/-- One character of `str.replace("|", "\\|")`. -/
def escBar (c : Char) : List Char :=
  if c = '|' then ['\\', '|'] else [c]

/-- Python `str.replace("|", "\\|")` from `evaluate_log_entry`. -/
def pyReplaceBar (s : String) : String :=
  ⟨s.data.foldr (fun c acc => escBar c ++ acc) []⟩

/-- Ordinal (code-point) lexicographic comparison of character lists,
the order Python's `sorted` uses on `str`. -/
def lexLe : List Char → List Char → Bool
  | [], _ => true
  | _ :: _, [] => false
  | a :: as, b :: bs =>
    if a.toNat < b.toNat then true
    else if b.toNat < a.toNat then false
    else lexLe as bs

/-- Python's `<=` on strings: ordinal lexicographic order. -/
def pyLe (s t : String) : Prop :=
  lexLe s.data t.data = true

instance : DecidableRel pyLe := fun s t => by
  unfold pyLe
  infer_instance

/-- `sort_archive_files` from `load_order_sorter.py`: Python `sorted`
on a list of names, i.e. an ordinal-lexicographic stable sort; the same
operation appears as `sorted(archive_set)` in `nexus_log_remover.py`. -/
def sort_archive_files (mod_archive_list : List String) : List String :=
  mod_archive_list.insertionSort pyLe

/-- ASCII model of the regex class `\w` used by the word boundary `\b`
in `EXCEPTION_PATTERN`. -/
def pyWordChar (c : Char) : Bool :=
  c.isAlphanum || c = '_'

/-- Whether position `i` of the subject holds a word character
(out-of-range positions count as non-word). -/
def wordCharAt (s : List Char) (i : Nat) : Bool :=
  match s[i]? with
  | some c => pyWordChar c
  | none => false

/-- The regex word boundary `\b` at position `i`: the two sides of the
position disagree on word-character-ness. -/
def wordBoundaryAt (s : List Char) (i : Nat) : Bool :=
  (match i with
   | 0 => false
   | j + 1 => wordCharAt s j) != wordCharAt s i

/-- Case-insensitive literal match of `kw` inside `s` at position `i`
(the `re.IGNORECASE` flag; ASCII case folding). -/
def ciMatchAt (s kw : List Char) (i : Nat) : Bool :=
  decide (i + kw.length ≤ s.length) &&
    ((s.drop i).take kw.length).map Char.toLower == kw.map Char.toLower

/-- A match of `\b<kw>\b` starting at position `i` of `s`. -/
def matchKeywordAt (s kw : List Char) (i : Nat) : Bool :=
  ciMatchAt s kw i && wordBoundaryAt s i && wordBoundaryAt s (i + kw.length)

/-- An apostrophe character, U+0027. -/
def apostrophe : String :=
  String.singleton (Char.ofNat 39)

/-- `EXCEPTION_KEYWORDS` from `nexus_log_analyzer.py`.  The Python
value is a `set`; the list order below is the literal's order, and no
statement depends on it, since only the existence of a match is ever
used. -/
def exceptionKeywords : List String :=
  ["WARN", "warning", "error", "errors", "failed", "skipped",
   "nil value", "null value", "stack trace", "non-existent",
   "doesn" ++ apostrophe ++ "t exist", "does not exist",
   "stack traceback:", "attempt to index", "attempted to index",
   "cannot be determined"]

/-- Truthiness of `EXCEPTION_PATTERN.search(s)`: some keyword of
`EXCEPTION_KEYWORDS` occurs in `s` at a position bracketed by word
boundaries, case-insensitively (`re.compile(r"\b(?:...)\b",
re.IGNORECASE)`). -/
def exceptionMatch (s : String) : Bool :=
  (List.range (s.length + 1)).any fun i =>
    exceptionKeywords.any fun kw => matchKeywordAt s.data kw.data i

/-- `evaluate_log_entry` from `nexus_log_analyzer.py`.  The Python
function mutates its `errors`/`warnings` arguments; the embedding
returns the updated pair.  `WARNING_KEYWORDS` is the set
`{"warn", "warning"}` and the membership loop `any(keyword in
log_content for keyword in WARNING_KEYWORDS)` is the disjunction of the
two substring tests. -/
def evaluate_log_entry (log_lines : List String)
    (errors warnings : List (String × String)) (log_path : String) :
    List (String × String) × List (String × String) :=
  let log_content := pyReplaceBar (pyStrip (joinLines log_lines))
  if strContains log_content "warn" || strContains log_content "warning" then
    (errors, warnings ++ [(log_path, log_content)])
  else if exceptionMatch log_content then
    (errors ++ [(log_path, log_content)], warnings)
  else
    (errors, warnings)

/-- Consume exactly `n` ASCII digits (`\d{n}`). -/
def takeDigits : Nat → List Char → Option (List Char)
  | 0, cs => some cs
  | n + 1, c :: cs => if c.isDigit then takeDigits n cs else none
  | _ + 1, [] => none

/-- Consume one expected literal character. -/
def expectChar (c : Char) : List Char → Option (List Char)
  | d :: cs => if d = c then some cs else none
  | [] => none

/-- Consume one `\s` character. -/
def expectSpace : List Char → Option (List Char)
  | d :: cs => if pyIsSpace d then some cs else none
  | [] => none

/-- The anchored prefix `\[\d{4}-\d{2}-\d{2}\s\d{2}:\d{2}:\d{2}` of
`TIMESTAMP_PATTERN`, consumed from the start of a line. -/
def timestampTail (cs : List Char) : Option (List Char) := do
  let cs ← expectChar '[' cs
  let cs ← takeDigits 4 cs
  let cs ← expectChar '-' cs
  let cs ← takeDigits 2 cs
  let cs ← expectChar '-' cs
  let cs ← takeDigits 2 cs
  let cs ← expectSpace cs
  let cs ← takeDigits 2 cs
  let cs ← expectChar ':' cs
  let cs ← takeDigits 2 cs
  let cs ← expectChar ':' cs
  takeDigits 2 cs

/-- Truthiness of `TIMESTAMP_PATTERN.match(line)`: the line starts with
a `[YYYY-MM-DD HH:MM:SS` timestamp marker. -/
def isTimestampLine (line : String) : Bool :=
  (timestampTail line.data).isSome

/-- The loop state of `parse_log_entries`: the two result lists and the
current line buffer `log_lines`. -/
structure ParseAcc where
  errors : List (String × String)
  warnings : List (String × String)
  buffer : List String

/-- One iteration of the reading loop of `parse_log_entries`: on a
timestamp boundary with a non-empty buffer the buffered entry is
classified and the buffer cleared; the current line is then always
appended to the buffer. -/
def logLineStep (log_path : String) (acc : ParseAcc) (line : String) : ParseAcc :=
  let acc1 :=
    if isTimestampLine line && !acc.buffer.isEmpty then
      let ew := evaluate_log_entry acc.buffer acc.errors acc.warnings log_path
      ⟨ew.1, ew.2, []⟩
    else acc
  ⟨acc1.errors, acc1.warnings, acc1.buffer ++ [line]⟩

/-- `parse_log_entries` from `nexus_log_analyzer.py`, over the lines of
the file at `log_path`: fold the reading loop, then classify a final
non-empty buffer. -/
def parse_log_entries (log_path : String) (lines : List String) :
    List (String × String) × List (String × String) :=
  let acc := lines.foldl (logLineStep log_path) ⟨[], [], []⟩
  if !acc.buffer.isEmpty then
    evaluate_log_entry acc.buffer acc.errors acc.warnings log_path
  else
    (acc.errors, acc.warnings)

/-- The Entry Segmenter view of the same loop: the groups of lines that
`parse_log_entries` hands to `evaluate_log_entry`, in order. -/
def segmentStep (acc : List (List String) × List String) (line : String) :
    List (List String) × List String :=
  if isTimestampLine line && !acc.2.isEmpty then (acc.1 ++ [acc.2], [line])
  else (acc.1, acc.2 ++ [line])

/-- The list of logical entries (line groups) of a standard log. -/
def segmentEntries (lines : List String) : List (List String) :=
  let acc := lines.foldl segmentStep ([], [])
  if !acc.2.isEmpty then acc.1 ++ [acc.2] else acc.1

/-- The loop state of `parse_redscript_log`: emitted warning records,
the open block `warning_lines`, and the `parsing_warning` flag. -/
structure RedAcc where
  warnings : List (String × String)
  buffer : List String
  parsing : Bool

/-- One iteration of the reading loop of `parse_redscript_log`:
a `[WARN` line flushes any open block and opens a new one; `[INFO`
lines are discarded; while a block is open, the line is appended and a
`^^^` line or blank line closes and emits the block. -/
def redLine (log_path : String) (acc : RedAcc) (line : String) : RedAcc :=
  if pyStartsWith line "[WARN" then
    let flushed :=
      if acc.buffer.isEmpty then acc.warnings
      else acc.warnings ++ [(log_path, pyStrip (joinLines acc.buffer))]
    { warnings := flushed, buffer := [line], parsing := true }
  else if pyStartsWith line "[INFO" then acc
  else if acc.parsing then
    let buf := acc.buffer ++ [line]
    if pyStartsWith line "^^^" || pyStrip line = "" then
      { warnings := acc.warnings ++ [(log_path, pyStrip (joinLines buf))],
        buffer := [], parsing := false }
    else
      { acc with buffer := buf }
  else acc

/-- The end-of-input flush of `parse_redscript_log`: a remaining
non-empty block is emitted. -/
def redFlush (log_path : String) (acc : RedAcc) : List (String × String) :=
  if acc.buffer.isEmpty then acc.warnings
  else acc.warnings ++ [(log_path, pyStrip (joinLines acc.buffer))]

/-- `parse_redscript_log` from `nexus_log_analyzer.py`, over the lines
of the file at `log_path`. -/
def parse_redscript_log (log_path : String) (lines : List String) :
    List (String × String) :=
  redFlush log_path (lines.foldl (redLine log_path) ⟨[], [], false⟩)

namespace LoadOrderSorter

/-- The inner loop of the collection phase of
`apply_custom_mod_order_rules` in `load_order_sorter.py`: walk one
rule's dependent list; each dependent still in the working set is
appended to the rule's priority list, removed from the set, and
counted.  Returns (priority list, remaining set, count). -/
def collectDeps (s : List String) : List String → List String × List String × Nat
  | [] => ([], s, 0)
  | d :: ds =>
    if d ∈ s then
      let r := collectDeps (s.erase d) ds
      (d :: r.1, r.2.1, r.2.2 + 1)
    else
      collectDeps s ds

/-- The outer loop of the collection phase: build
`priority_archive_file` (an insertion-ordered mapping from each rule's
target to the dependents actually collected), the remaining working
set, and `overridden_mod_count`. -/
def collectRules (s : List String) :
    List (String × List String) → List (String × List String) × List String × Nat
  | [] => ([], s, 0)
  | (t, ds) :: rs =>
    let c := collectDeps s ds
    let r := collectRules c.2.1 rs
    ((t, c.1) :: r.1, r.2.1, c.2.2 + r.2.2)

/-- Inserting a block of elements at index `i`, the effect of the
Python loop `for m in reversed(mods): lst.insert(i, m)`. -/
def insertAt (l : List String) (i : Nat) (ms : List String) : List String :=
  l.take i ++ ms ++ l.drop i

/-- One iteration of the reinsertion loop of `load_order_sorter.py`:
if the target is present, its collected dependents are inserted at the
target's first index; otherwise they are appended at the end
(`sorted_archive_list.extend(mods)`). -/
def applyRule (l : List String) (t : String) (ms : List String) : List String :=
  if t ∈ l then insertAt l (l.indexOf t) ms else l ++ ms

/-- The reinsertion loop over the collected priority mapping. -/
def applyPrio (l : List String) : List (String × List String) → List String
  | [] => l
  | (t, ms) :: rest => applyPrio (applyRule l t ms) rest

/-- The body of `apply_custom_mod_order_rules` in
`load_order_sorter.py` after `set_of_archives = set(...)` has been
built, parameterized by the enumeration `s` chosen for that set. -/
def resolveWithSet (s : List String) (rules : List (String × List String)) :
    List String × Nat :=
  let c := collectRules s rules
  (applyPrio (sort_archive_files c.2.1) c.1, c.2.2)

/-- `apply_custom_mod_order_rules` from `load_order_sorter.py`.
`set(list_of_archive_files)` is represented by `List.dedup`; the
theorem for claim C7 shows the choice of enumeration is irrelevant. -/
def apply_custom_mod_order_rules (list_of_archive_files : List String)
    (custom_order_rules : List (String × List String)) : List String × Nat :=
  resolveWithSet list_of_archive_files.dedup custom_order_rules

/-- All dependents stored in a priority mapping, in order. -/
def modsOf (prio : List (String × List String)) : List String :=
  prio.foldr (fun p acc => p.2 ++ acc) []

end LoadOrderSorter

namespace NexusLogRemover

/-- `all(dep in archive_set for dep in deps)` and the target membership
test of the rule filter in `nexus_log_remover.py`. -/
def ruleValid (s : List String) (r : String × List String) : Bool :=
  decide (r.1 ∈ s) && r.2.all fun d => decide (d ∈ s)

/-- The dependent-removal loop of `nexus_log_remover.py` over one
rule's dependent list: each dependent still in the working set is
removed and counted (the `ordered_mods` list built alongside is never
read for the function's result). -/
def removeDepsList (s : List String) : List String → List String × Nat
  | [] => (s, 0)
  | d :: ds =>
    if d ∈ s then
      let r := removeDepsList (s.erase d) ds
      (r.1, r.2 + 1)
    else
      removeDepsList s ds

/-- The removal loop over all filtered rules. -/
def removeDeps (s : List String) :
    List (String × List String) → List String × Nat
  | [] => (s, 0)
  | (_, ds) :: rs =>
    let a := removeDepsList s ds
    let b := removeDeps a.1 rs
    (b.1, a.2 + b.2)

/-- The reinsertion loop of `nexus_log_remover.py`: the full dependent
list of each filtered rule is inserted at the target's index, or at the
end when the target is absent (`index = ... if each_mod in
remaining_archives else len(remaining_archives)`); `List.indexOf`
returns the length for absent elements, which is exactly that rule. -/
def removerInsert (l : List String) : List (String × List String) → List String
  | [] => l
  | (t, ds) :: rest =>
    removerInsert (LoadOrderSorter.insertAt l (l.indexOf t) ds) rest

/-- `apply_custom_mod_order_rules` from `nexus_log_remover.py`:
filter the rules to those whose target and dependents are all present,
remove and count the dependents, sort the remainder, and reinsert each
filtered rule's dependents before its target. -/
def apply_custom_mod_order_rules (archive_list : List String)
    (custom_order_rules : List (String × List String)) : List String × Nat :=
  let s := archive_list.dedup
  let filtered := custom_order_rules.filter (ruleValid s)
  let rd := removeDeps s filtered
  (removerInsert (sort_archive_files rd.1) filtered, rd.2)

end NexusLogRemover

/-- The aggregate state of `process_logs` in `nexus_log_analyzer.py`;
field names follow the Python locals.  The Python `if log_errors:
total_exceptions += len(log_errors)` (and the warning analogue) is an
unconditional addition, since adding the length of an empty list is a
no-op. -/
structure LogStats where
  total_exceptions : Nat
  total_warnings : Nat
  total_cleaned : Nat
  error_logs : List (String × String)
  warning_logs : List (String × String)
  clean_logs : List (String × String)
  missing_logs : List String
  total_logs_processed : Nat

/-- `os.path.basename`: the part of the path after the last `/` or
`\` separator. -/
def basename (p : String) : String :=
  ⟨(p.data.reverse.takeWhile fun c => !(c = '/' || c = '\\')).reverse⟩

/-- One iteration of `process_logs`.  The surrounding file system is a
partial map from paths to line sequences; `os.path.exists` failing is
`none`, and a missing path is appended to `missing_logs` and the loop
continues with the next path. -/
def processOne (fs : String → Option (List String)) (st : LogStats)
    (path : String) : LogStats :=
  match fs path with
  | none => { st with missing_logs := st.missing_logs ++ [path] }
  | some lines =>
    let log_name := basename path
    let ew :=
      if log_name = "redscript_rCURRENT.log" then
        (([] : List (String × String)), parse_redscript_log path lines)
      else
        parse_log_entries path lines
    { total_exceptions := st.total_exceptions + ew.1.length
      total_warnings := st.total_warnings + ew.2.length
      total_cleaned :=
        if ew.1.isEmpty && ew.2.isEmpty then st.total_cleaned + 1
        else st.total_cleaned
      error_logs := st.error_logs ++ ew.1
      warning_logs := st.warning_logs ++ ew.2
      clean_logs :=
        if ew.1.isEmpty && ew.2.isEmpty then st.clean_logs ++ [(log_name, path)]
        else st.clean_logs
      missing_logs := st.missing_logs
      total_logs_processed := st.total_logs_processed + 1 }

/-- `process_logs` from `nexus_log_analyzer.py` (the progress bar and
timing are display-only and omitted). -/
def process_logs (fs : String → Option (List String))
    (log_file_paths : List String) : LogStats :=
  log_file_paths.foldl (processOne fs) ⟨0, 0, 0, [], [], [], [], 0⟩

/-- A heap of list-valued cells, used to state the no-mutation claim:
Python lists are caller-owned heap objects addressed by identity. -/
structure Heap where
  cells : List (List String)

/-- Read the list object at address `a`. -/
def Heap.read (h : Heap) (a : Nat) : List String :=
  h.cells.getD a []

/-- Overwrite the list object at address `a` (an in-place list
mutation such as `insert` or `extend`). -/
def Heap.write (h : Heap) (a : Nat) (v : List String) : Heap :=
  ⟨h.cells.set a v⟩

/-- Allocate a fresh list object, returning the new heap and the fresh
address. -/
def Heap.alloc (h : Heap) (v : List String) : Heap × Nat :=
  (⟨h.cells ++ [v]⟩, h.cells.length)

/-- The reinsertion loop of `load_order_sorter.py` as heap writes: each
iteration mutates only the list at address `a`
(`sorted_archive_list.insert` / `.extend`). -/
def applyPrioHeap (h : Heap) (a : Nat) :
    List (String × List String) → Heap
  | [] => h
  | (t, ms) :: rest =>
    applyPrioHeap (h.write a (LoadOrderSorter.applyRule (h.read a) t ms)) a rest

/-- `apply_custom_mod_order_rules` of `load_order_sorter.py` run
against the heap: the input list lives at `inAddr` and is only read
(`set(list_of_archive_files)`); `sorted_archive_list` is allocated
fresh from the sorted remainder and then mutated in place by the
reinsertion loop; its address and the count are returned. -/
def sorterResolveOnHeap (h : Heap) (inAddr : Nat)
    (rules : List (String × List String)) : Heap × Nat × Nat :=
  let c := LoadOrderSorter.collectRules (h.read inAddr).dedup rules
  let alloc := h.alloc (sort_archive_files c.2.1)
  (applyPrioHeap alloc.1 alloc.2 c.1, alloc.2, c.2.2)

/-- Equality of all `process_logs` outputs except the missing-files
collection. -/
def agreeExceptMissing (a b : LogStats) : Prop :=
  a.total_exceptions = b.total_exceptions ∧
    a.total_warnings = b.total_warnings ∧
    a.total_cleaned = b.total_cleaned ∧
    a.error_logs = b.error_logs ∧
    a.warning_logs = b.warning_logs ∧
    a.clean_logs = b.clean_logs ∧
    a.total_logs_processed = b.total_logs_processed

/-- A redscript warning record whose text is built only from lines that
are not `[INFO`-prefixed. -/
def infoFree (pr : String × String) : Prop :=
  ∃ ls : List String, (∀ l ∈ ls, pyStartsWith l "[INFO" = false) ∧
    pr.2 = pyStrip (joinLines ls)

theorem lexLe_cons (a b : Char) (as bs : List Char) :
    lexLe (a :: as) (b :: bs) = true ↔
      a.toNat < b.toNat ∨ (a.toNat = b.toNat ∧ lexLe as bs = true) := by
  simp only [lexLe]
  split_ifs with h1 h2
  · simp [h1]
  · constructor
    · intro h
      simp at h
    · rintro (h | ⟨h, _⟩)
      · exact absurd h h1
      · omega
  · constructor
    · intro h
      exact Or.inr ⟨by omega, h⟩
    · rintro (h | ⟨_, h⟩)
      · exact absurd h h1
      · exact h

theorem lexLe_total : ∀ as bs : List Char, lexLe as bs = true ∨ lexLe bs as = true
  | [], _ => Or.inl rfl
  | _ :: _, [] => Or.inr rfl
  | a :: as, b :: bs => by
    rw [lexLe_cons, lexLe_cons]
    rcases Nat.lt_trichotomy a.toNat b.toNat with h | h | h
    · exact Or.inl (Or.inl h)
    · rcases lexLe_total as bs with h' | h'
      · exact Or.inl (Or.inr ⟨h, h'⟩)
      · exact Or.inr (Or.inr ⟨h.symm, h'⟩)
    · exact Or.inr (Or.inl h)

theorem lexLe_trans : ∀ as bs cs : List Char,
    lexLe as bs = true → lexLe bs cs = true → lexLe as cs = true
  | [], _, _, _, _ => rfl
  | _ :: _, [], _, h, _ => by cases h
  | _ :: _, _ :: _, [], _, h => by cases h
  | a :: as, b :: bs, c :: cs, h₁, h₂ => by
    rw [lexLe_cons] at h₁ h₂ ⊢
    rcases h₁ with h₁ | ⟨e₁, h₁⟩ <;> rcases h₂ with h₂ | ⟨e₂, h₂⟩
    · exact Or.inl (Nat.lt_trans h₁ h₂)
    · exact Or.inl (e₂ ▸ h₁)
    · exact Or.inl (e₁ ▸ h₂)
    · exact Or.inr ⟨e₁.trans e₂, lexLe_trans as bs cs h₁ h₂⟩

theorem char_toNat_inj {c d : Char} (h : c.toNat = d.toNat) : c = d := by
  have h2 := congrArg Char.ofNat h
  rwa [Char.ofNat_toNat, Char.ofNat_toNat] at h2

theorem lexLe_antisymm : ∀ as bs : List Char,
    lexLe as bs = true → lexLe bs as = true → as = bs
  | [], [], _, _ => rfl
  | [], _ :: _, _, h => by cases h
  | _ :: _, [], h, _ => by cases h
  | a :: as, b :: bs, h₁, h₂ => by
    rw [lexLe_cons] at h₁ h₂
    rcases h₁ with h₁ | ⟨e₁, h₁⟩
    · rcases h₂ with h₂ | ⟨e₂, _⟩
      · exact absurd h₂ (Nat.lt_asymm h₁)
      · omega
    · rcases h₂ with h₂ | ⟨e₂, h₂⟩
      · omega
      · rw [char_toNat_inj e₁, lexLe_antisymm as bs h₁ h₂]

theorem sort_archive_files_perm (l : List String) :
    List.Perm (sort_archive_files l) l :=
  List.perm_insertionSort pyLe l

theorem sort_archive_files_sorted (l : List String) :
    List.Sorted pyLe (sort_archive_files l) := by
  haveI : IsTotal String pyLe := ⟨fun s t => lexLe_total s.data t.data⟩
  haveI : IsTrans String pyLe := ⟨fun s t u => lexLe_trans s.data t.data u.data⟩
  exact List.sorted_insertionSort pyLe l

theorem sort_archive_files_congr {l₁ l₂ : List String} (h : List.Perm l₁ l₂) :
    sort_archive_files l₁ = sort_archive_files l₂ := by
  haveI : IsAntisymm String pyLe :=
    ⟨fun s t h₁ h₂ => String.ext (lexLe_antisymm s.data t.data h₁ h₂)⟩
  exact List.eq_of_perm_of_sorted
    (((sort_archive_files_perm l₁).trans h).trans (sort_archive_files_perm l₂).symm)
    (sort_archive_files_sorted l₁) (sort_archive_files_sorted l₂)

example : sort_archive_files ["c.archive", "a.archive", "b.archive"] =
    ["a.archive", "b.archive", "c.archive"] := by decide

example : pyStrip "  ab \n" = "ab" := by decide

example : pyReplaceBar "a|b" = "a\\|b" := by decide

example : strContains "error: warning state detected" "warn" = true := by decide

example : isTimestampLine "[2024-01-01 00:00:00] started" = true := by decide

example : isTimestampLine "  detail line" = false := by decide

example : exceptionMatch "error: warning state detected" = true := by decide

example : exceptionMatch "[2024-01-01 00:00:00] started\n  detail line" = false := by decide

example :
    parse_redscript_log "p"
      ["[WARN] issue A", "detail", "^^^", "[INFO] noise", "[WARN] issue B"] =
    [("p", "[WARN] issue A\ndetail\n^^^"), ("p", "[WARN] issue B")] := by decide

example :
    parse_log_entries "p"
      ["[2024-01-01 00:00:00] started", "  detail line",
       "[2024-01-01 00:00:01] warning: low memory"] =
    ([], [("p", "[2024-01-01 00:00:01] warning: low memory")]) := by decide

example :
    segmentEntries
      ["[2024-01-01 00:00:00] started", "  detail line",
       "[2024-01-01 00:00:01] warning: low memory"] =
    [["[2024-01-01 00:00:00] started", "  detail line"],
     ["[2024-01-01 00:00:01] warning: low memory"]] := by decide

example :
    LoadOrderSorter.apply_custom_mod_order_rules
      ["a.archive", "b.archive", "c.archive", "d.archive"]
      [("c.archive", ["a.archive", "b.archive"])] =
    (["a.archive", "b.archive", "c.archive", "d.archive"], 2) := by decide

example :
    LoadOrderSorter.apply_custom_mod_order_rules
      ["a.archive", "c.archive"] [("c.archive", ["z.archive", "a.archive"])] =
    (["a.archive", "c.archive"], 1) := by decide

example :
    NexusLogRemover.apply_custom_mod_order_rules
      ["a.archive", "c.archive"] [("c.archive", ["z.archive", "a.archive"])] =
    (["a.archive", "c.archive"], 0) := by decide

example :
    NexusLogRemover.apply_custom_mod_order_rules
      ["a.archive", "b.archive", "c.archive", "d.archive"]
      [("c.archive", ["a.archive", "b.archive"])] =
    (["a.archive", "b.archive", "c.archive", "d.archive"], 2) := by decide

namespace LoadOrderSorter

theorem modsOf_cons (t : String) (ms : List String)
    (rest : List (String × List String)) :
    modsOf ((t, ms) :: rest) = ms ++ modsOf rest := rfl

theorem collectDeps_perm : ∀ (s ds : List String),
    List.Perm ((collectDeps s ds).1 ++ (collectDeps s ds).2.1) s
  | s, [] => by simp [collectDeps]
  | s, d :: ds => by
    by_cases h : d ∈ s
    · have ih := collectDeps_perm (s.erase d) ds
      simp only [collectDeps, if_pos h, List.cons_append]
      exact (ih.cons d).trans (List.perm_cons_erase h).symm
    · simp only [collectDeps, if_neg h]
      exact collectDeps_perm s ds

theorem collectDeps_sub {s ds : List String} {x : String}
    (h : x ∈ (collectDeps s ds).2.1) : x ∈ s :=
  (collectDeps_perm s ds).mem_iff.mp (List.mem_append_right _ h)

theorem collectDeps_nodup {s : List String} (ds : List String) (h : s.Nodup) :
    ((collectDeps s ds).1 ++ (collectDeps s ds).2.1).Nodup :=
  (collectDeps_perm s ds).nodup_iff.mpr h

theorem collectDeps_mem (s ds : List String) (h : s.Nodup) (x : String) :
    x ∈ (collectDeps s ds).2.1 ↔ x ∈ s ∧ x ∉ (collectDeps s ds).1 := by
  have hp := collectDeps_perm s ds
  have hn := collectDeps_nodup ds h
  constructor
  · intro hx
    refine ⟨collectDeps_sub hx, fun hx1 => ?_⟩
    exact (List.disjoint_of_nodup_append hn) hx1 hx
  · rintro ⟨hs, hnot⟩
    rcases List.mem_append.mp (hp.mem_iff.mpr hs) with h1 | h1
    · exact absurd h1 hnot
    · exact h1

theorem collectDeps_congr : ∀ (ds s₁ s₂ : List String),
    s₁.Nodup → s₂.Nodup → (∀ x, x ∈ s₁ ↔ x ∈ s₂) →
    (collectDeps s₁ ds).1 = (collectDeps s₂ ds).1 ∧
      (collectDeps s₁ ds).2.2 = (collectDeps s₂ ds).2.2 ∧
      ∀ x, x ∈ (collectDeps s₁ ds).2.1 ↔ x ∈ (collectDeps s₂ ds).2.1
  | [], _, _, _, _, hm => ⟨rfl, rfl, hm⟩
  | d :: ds, s₁, s₂, h₁, h₂, hm => by
    by_cases h : d ∈ s₁
    · have h' : d ∈ s₂ := (hm d).mp h
      have ih := collectDeps_congr ds (s₁.erase d) (s₂.erase d) (h₁.erase d)
        (h₂.erase d) (fun x => by
          rw [List.Nodup.mem_erase_iff h₁, List.Nodup.mem_erase_iff h₂, hm x])
      simp only [collectDeps, if_pos h, if_pos h']
      exact ⟨by rw [ih.1], by rw [ih.2.1], ih.2.2⟩
    · have h' : d ∉ s₂ := fun hx => h ((hm d).mpr hx)
      simp only [collectDeps, if_neg h, if_neg h']
      exact collectDeps_congr ds s₁ s₂ h₁ h₂ hm

theorem collectDeps_absent : ∀ (ds s : List String),
    (∀ d ∈ ds, d ∉ s) → collectDeps s ds = ([], s, 0)
  | [], _, _ => rfl
  | d :: ds, s, h => by
    simp only [collectDeps, if_neg (h d (List.mem_cons_self d ds))]
    exact collectDeps_absent ds s fun d' hd' => h d' (List.mem_cons_of_mem d hd')

theorem collectDeps_all : ∀ (ds s : List String),
    ds.Nodup → (∀ d ∈ ds, d ∈ s) →
    (collectDeps s ds).1 = ds ∧ (collectDeps s ds).2.2 = ds.length
  | [], _, _, _ => ⟨rfl, rfl⟩
  | d :: ds, s, hnd, h => by
    have hd : d ∈ s := h d (List.mem_cons_self d ds)
    have ih := collectDeps_all ds (s.erase d) (List.Nodup.of_cons hnd)
      (fun d' hd' =>
        have hne : d' ≠ d := fun he => (List.nodup_cons.mp hnd).1 (he ▸ hd')
        (List.mem_erase_of_ne hne).mpr (h d' (List.mem_cons_of_mem d hd')))
    simp only [collectDeps, if_pos hd]
    exact ⟨by rw [ih.1], by rw [ih.2, List.length_cons]⟩

theorem collectDeps_set_nodup {s : List String} (ds : List String)
    (h : s.Nodup) : (collectDeps s ds).2.1.Nodup :=
  (collectDeps_nodup ds h).of_append_right

theorem collectRules_perm : ∀ (s : List String) (rs : List (String × List String)),
    List.Perm (modsOf (collectRules s rs).1 ++ (collectRules s rs).2.1) s
  | s, [] => by simp [collectRules, modsOf]
  | s, (t, ds) :: rs => by
    have hcd := collectDeps_perm s ds
    have ih := collectRules_perm (collectDeps s ds).2.1 rs
    simp only [collectRules, modsOf_cons, List.append_assoc]
    exact (List.Perm.append_left _ ih).trans hcd

theorem collectRules_sub {s : List String} {rs : List (String × List String)}
    {x : String} (h : x ∈ (collectRules s rs).2.1) : x ∈ s :=
  (collectRules_perm s rs).mem_iff.mp (List.mem_append_right _ h)

theorem collectRules_set_nodup {s : List String}
    (rs : List (String × List String)) (h : s.Nodup) :
    (collectRules s rs).2.1.Nodup :=
  ((collectRules_perm s rs).nodup_iff.mpr h).of_append_right

theorem collectRules_congr :
    ∀ (rs : List (String × List String)) (s₁ s₂ : List String),
    s₁.Nodup → s₂.Nodup → (∀ x, x ∈ s₁ ↔ x ∈ s₂) →
    (collectRules s₁ rs).1 = (collectRules s₂ rs).1 ∧
      (collectRules s₁ rs).2.2 = (collectRules s₂ rs).2.2 ∧
      ∀ x, x ∈ (collectRules s₁ rs).2.1 ↔ x ∈ (collectRules s₂ rs).2.1
  | [], _, _, _, _, hm => ⟨rfl, rfl, hm⟩
  | (t, ds) :: rs, s₁, s₂, h₁, h₂, hm => by
    obtain ⟨hm1, hc1, hs1⟩ := collectDeps_congr ds s₁ s₂ h₁ h₂ hm
    obtain ⟨hp2, hc2, hs2⟩ := collectRules_congr rs (collectDeps s₁ ds).2.1
      (collectDeps s₂ ds).2.1 (collectDeps_set_nodup ds h₁)
      (collectDeps_set_nodup ds h₂) hs1
    simp only [collectRules]
    exact ⟨by rw [hm1, hp2], by rw [hc1, hc2], hs2⟩

theorem collectRules_append :
    ∀ (rs₁ rs₂ : List (String × List String)) (s : List String),
    collectRules s (rs₁ ++ rs₂) =
      ((collectRules s rs₁).1 ++ (collectRules (collectRules s rs₁).2.1 rs₂).1,
       (collectRules (collectRules s rs₁).2.1 rs₂).2.1,
       (collectRules s rs₁).2.2 + (collectRules (collectRules s rs₁).2.1 rs₂).2.2)
  | [], rs₂, s => by simp [collectRules]
  | (t, ds) :: rs₁, rs₂, s => by
    have ih := collectRules_append rs₁ rs₂ (collectDeps s ds).2.1
    show collectRules s ((t, ds) :: (rs₁ ++ rs₂)) = _
    simp only [collectRules]
    rw [ih]
    simp [Nat.add_assoc]

theorem mem_modsOf {d : String} :
    ∀ {rs : List (String × List String)} {r : String × List String},
    r ∈ rs → d ∈ r.2 → d ∈ modsOf rs
  | rule :: rs, r, hr, hd => by
    rcases List.mem_cons.mp hr with h | h
    · subst h
      exact List.mem_append_left _ hd
    · exact List.mem_append_right _ (mem_modsOf h hd)

theorem collectRules_all :
    ∀ (rs : List (String × List String)) (s : List String),
    s.Nodup → (modsOf rs).Nodup → (∀ r ∈ rs, ∀ d ∈ r.2, d ∈ s) →
    (collectRules s rs).1 = rs
  | [], _, _, _, _ => rfl
  | (t, ds) :: rs, s, hs, hnd, hmem => by
    have hnd' : (ds ++ modsOf rs).Nodup := hnd
    have hds : ds.Nodup := hnd'.of_append_left
    have hall : ∀ d ∈ ds, d ∈ s :=
      fun d hd => hmem (t, ds) (List.mem_cons_self _ _) d hd
    have hcd := collectDeps_all ds s hds hall
    have htail : ∀ r ∈ rs, ∀ d ∈ r.2, d ∈ (collectDeps s ds).2.1 := by
      intro r hr d hd
      rw [collectDeps_mem s ds hs d, hcd.1]
      refine ⟨hmem r (List.mem_cons_of_mem _ hr) d hd, fun hin => ?_⟩
      exact (List.disjoint_of_nodup_append hnd') hin (mem_modsOf hr hd)
    have ih := collectRules_all rs (collectDeps s ds).2.1
      (collectDeps_set_nodup ds hs) hnd'.of_append_right htail
    simp only [collectRules]
    rw [hcd.1, ih]

theorem insertAt_perm (l : List String) (i : Nat) (ms : List String) :
    List.Perm (insertAt l i ms) (l ++ ms) := by
  unfold insertAt
  have h2 := List.Perm.append_left (l.take i)
    (List.perm_append_comm : List.Perm (ms ++ l.drop i) (l.drop i ++ ms))
  simp only [← List.append_assoc] at h2
  rwa [List.take_append_drop] at h2

theorem applyRule_perm (l : List String) (t : String) (ms : List String) :
    List.Perm (applyRule l t ms) (l ++ ms) := by
  unfold applyRule
  split
  · exact insertAt_perm l _ ms
  · exact List.Perm.refl _

theorem applyRule_nil (l : List String) (t : String) :
    applyRule l t [] = l := by
  unfold applyRule insertAt
  split
  · rw [List.append_nil, List.take_append_drop]
  · rw [List.append_nil]

theorem applyRule_eq_insertAt (l : List String) (t : String) (ms : List String) :
    applyRule l t ms = insertAt l (l.indexOf t) ms := by
  unfold applyRule
  split
  · rfl
  · next h =>
    unfold insertAt
    rw [List.indexOf_eq_length.mpr h, List.take_length, List.drop_length,
      List.append_nil]

theorem applyPrio_append :
    ∀ (p₁ p₂ : List (String × List String)) (l : List String),
    applyPrio l (p₁ ++ p₂) = applyPrio (applyPrio l p₁) p₂
  | [], _, _ => rfl
  | (t, ms) :: p₁, p₂, l => by
    simp only [List.cons_append, applyPrio]
    exact applyPrio_append p₁ p₂ (applyRule l t ms)

theorem applyPrio_perm : ∀ (prio : List (String × List String)) (l : List String),
    List.Perm (applyPrio l prio) (l ++ modsOf prio)
  | [], l => by
    simp [applyPrio, modsOf]
  | (t, ms) :: rest, l => by
    have ih := applyPrio_perm rest (applyRule l t ms)
    have h2 := (applyRule_perm l t ms).append_right (modsOf rest)
    rw [List.append_assoc] at h2
    exact (ih.trans h2).trans (by rw [modsOf_cons])

theorem resolveWithSet_perm (s : List String) (rules : List (String × List String)) :
    List.Perm (resolveWithSet s rules).1 s := by
  unfold resolveWithSet
  refine (applyPrio_perm _ _).trans ?_
  refine ((sort_archive_files_perm _).append_right _).trans ?_
  exact (List.perm_append_comm).trans (collectRules_perm s rules)

theorem sorter_result_perm (artifacts : List String)
    (rules : List (String × List String)) :
    List.Perm (apply_custom_mod_order_rules artifacts rules).1 artifacts.dedup :=
  resolveWithSet_perm artifacts.dedup rules

theorem resolveWithSet_congr (rules : List (String × List String))
    (s₁ s₂ : List String) (h₁ : s₁.Nodup) (h₂ : s₂.Nodup)
    (hm : ∀ x, x ∈ s₁ ↔ x ∈ s₂) :
    resolveWithSet s₁ rules = resolveWithSet s₂ rules := by
  obtain ⟨hp, hc, hs⟩ := collectRules_congr rules s₁ s₂ h₁ h₂ hm
  have hsort : sort_archive_files (collectRules s₁ rules).2.1 =
      sort_archive_files (collectRules s₂ rules).2.1 :=
    sort_archive_files_congr ((List.perm_ext_iff_of_nodup
      (collectRules_set_nodup rules h₁) (collectRules_set_nodup rules h₂)).mpr hs)
  simp only [resolveWithSet]
  rw [hp, hc, hsort]

theorem resolveWithSet_skip (s : List String) (t : String) (ds : List String)
    (pre post : List (String × List String)) (h : ∀ d ∈ ds, d ∉ s) :
    resolveWithSet s (pre ++ (t, ds) :: post) = resolveWithSet s (pre ++ post) := by
  have habs : collectDeps (collectRules s pre).2.1 ds =
      ([], (collectRules s pre).2.1, 0) :=
    collectDeps_absent ds _ (fun d hd hmem => h d hd (collectRules_sub hmem))
  unfold resolveWithSet
  rw [collectRules_append pre ((t, ds) :: post) s, collectRules_append pre post s]
  simp only [collectRules, habs]
  rw [applyPrio_append, applyPrio_append]
  simp only [applyPrio, applyRule_nil, Nat.zero_add]

end LoadOrderSorter

namespace NexusLogRemover

theorem removeDepsList_eq : ∀ (ds s : List String),
    removeDepsList s ds =
      ((LoadOrderSorter.collectDeps s ds).2.1, (LoadOrderSorter.collectDeps s ds).2.2)
  | [], _ => rfl
  | d :: ds, s => by
    by_cases h : d ∈ s
    · simp only [removeDepsList, LoadOrderSorter.collectDeps, if_pos h,
        removeDepsList_eq ds (s.erase d)]
    · simp only [removeDepsList, LoadOrderSorter.collectDeps, if_neg h]
      exact removeDepsList_eq ds s

theorem removeDeps_eq : ∀ (rs : List (String × List String)) (s : List String),
    removeDeps s rs =
      ((LoadOrderSorter.collectRules s rs).2.1, (LoadOrderSorter.collectRules s rs).2.2)
  | [], _ => rfl
  | (t, ds) :: rs, s => by
    simp only [removeDeps, LoadOrderSorter.collectRules, removeDepsList_eq ds s,
      removeDeps_eq rs (LoadOrderSorter.collectDeps s ds).2.1]

theorem removerInsert_eq_applyPrio :
    ∀ (rs : List (String × List String)) (l : List String),
    removerInsert l rs = LoadOrderSorter.applyPrio l rs
  | [], _ => rfl
  | (t, ds) :: rs, l => by
    simp only [removerInsert, LoadOrderSorter.applyPrio,
      LoadOrderSorter.applyRule_eq_insertAt]
    exact removerInsert_eq_applyPrio rs _

end NexusLogRemover

theorem evaluate_log_entry_warn (log_lines : List String)
    (e w : List (String × String)) (p : String)
    (h : (strContains (pyReplaceBar (pyStrip (joinLines log_lines))) "warn" ||
          strContains (pyReplaceBar (pyStrip (joinLines log_lines))) "warning") = true) :
    evaluate_log_entry log_lines e w p =
      (e, w ++ [(p, pyReplaceBar (pyStrip (joinLines log_lines)))]) := by
  unfold evaluate_log_entry
  simp [h]

theorem evaluate_log_entry_error (log_lines : List String)
    (e w : List (String × String)) (p : String)
    (h : (strContains (pyReplaceBar (pyStrip (joinLines log_lines))) "warn" ||
          strContains (pyReplaceBar (pyStrip (joinLines log_lines))) "warning") = false)
    (hm : exceptionMatch (pyReplaceBar (pyStrip (joinLines log_lines))) = true) :
    evaluate_log_entry log_lines e w p =
      (e ++ [(p, pyReplaceBar (pyStrip (joinLines log_lines)))], w) := by
  unfold evaluate_log_entry
  simp [h, hm]

theorem evaluate_log_entry_clean (log_lines : List String)
    (e w : List (String × String)) (p : String)
    (h : (strContains (pyReplaceBar (pyStrip (joinLines log_lines))) "warn" ||
          strContains (pyReplaceBar (pyStrip (joinLines log_lines))) "warning") = false)
    (hm : exceptionMatch (pyReplaceBar (pyStrip (joinLines log_lines))) = false) :
    evaluate_log_entry log_lines e w p = (e, w) := by
  unfold evaluate_log_entry
  simp [h, hm]

theorem processOne_missing (fs : String → Option (List String)) (st : LogStats)
    (p : String) (h : fs p = none) :
    processOne fs st p = { st with missing_logs := st.missing_logs ++ [p] } := by
  unfold processOne
  rw [h]

theorem processOne_agree (fs : String → Option (List String)) {a b : LogStats}
    (x : String) (h : agreeExceptMissing a b) :
    agreeExceptMissing (processOne fs a x) (processOne fs b x) := by
  obtain ⟨h1, h2, h3, h4, h5, h6, h7⟩ := h
  unfold processOne
  cases fs x with
  | none => exact ⟨h1, h2, h3, h4, h5, h6, h7⟩
  | some lines => simp [agreeExceptMissing, h1, h2, h3, h4, h5, h6, h7]

theorem processOne_missing_mono (fs : String → Option (List String))
    (st : LogStats) (x : String) {p : String} (h : p ∈ st.missing_logs) :
    p ∈ (processOne fs st x).missing_logs := by
  unfold processOne
  cases fs x with
  | none => exact List.mem_append_left _ h
  | some lines => exact h

theorem foldl_processOne_agree (fs : String → Option (List String)) :
    ∀ (ps : List String) {a b : LogStats}, agreeExceptMissing a b →
    agreeExceptMissing (ps.foldl (processOne fs) a) (ps.foldl (processOne fs) b)
  | [], _, _, h => h
  | x :: ps, _, _, h => foldl_processOne_agree fs ps (processOne_agree fs x h)

theorem foldl_processOne_missing_mono (fs : String → Option (List String)) :
    ∀ (ps : List String) {st : LogStats} {p : String}, p ∈ st.missing_logs →
    p ∈ (ps.foldl (processOne fs) st).missing_logs
  | [], _, _, h => h
  | x :: ps, st, _, h =>
    foldl_processOne_missing_mono fs ps (processOne_missing_mono fs st x h)

theorem pyStrip_data (s : String) :
    (pyStrip s).data =
      ((s.data.dropWhile pyIsSpace).reverse.dropWhile pyIsSpace).reverse := rfl

theorem head_of_startsWith {line p : String} {d : Char} {ps : List Char}
    (hp : p.data = d :: ps) (h : pyStartsWith line p = true) :
    ∃ rest, line.data = d :: rest := by
  unfold pyStartsWith at h
  rw [hp] at h
  cases hd : line.data with
  | nil =>
    rw [hd] at h
    simp [List.isPrefixOf] at h
  | cons c rest =>
    rw [hd] at h
    simp only [List.isPrefixOf, Bool.and_eq_true, beq_iff_eq] at h
    exact ⟨rest, by rw [← h.1]⟩

theorem startsWith_false_of_head {line : String} {c : Char} {rest : List Char}
    (hd : line.data = c :: rest) {p : String} {d : Char} {ps : List Char}
    (hp : p.data = d :: ps) (hne : c ≠ d) : pyStartsWith line p = false := by
  rw [Bool.eq_false_iff]
  intro h
  obtain ⟨rest2, hr⟩ := head_of_startsWith hp h
  rw [hd] at hr
  exact hne (List.cons.inj hr).1

theorem blank_not_starts {line : String} (h : pyStrip line = "") {p : String}
    {d : Char} {ps : List Char} (hp : p.data = d :: ps)
    (hd : pyIsSpace d = false) : pyStartsWith line p = false := by
  rw [Bool.eq_false_iff]
  intro h2
  obtain ⟨rest, hr⟩ := head_of_startsWith hp h2
  have hdata : ((line.data.dropWhile pyIsSpace).reverse.dropWhile pyIsSpace).reverse
      = [] := by
    rw [← pyStrip_data, h]
  rw [List.reverse_eq_nil_iff, List.dropWhile_eq_nil_iff] at hdata
  have hmem : d ∈ (line.data.dropWhile pyIsSpace).reverse := by
    rw [List.mem_reverse, hr, List.dropWhile_cons, hd]
    simp
  rw [hdata d hmem] at hd
  exact Bool.noConfusion hd

theorem warn_not_info {line : String} (h : pyStartsWith line "[WARN" = true) :
    pyStartsWith line "[INFO" = false := by
  have hw : ("[WARN" : String).data = ['[', 'W', 'A', 'R', 'N'] := rfl
  obtain ⟨rest, hr⟩ := head_of_startsWith hw h
  rw [Bool.eq_false_iff]
  intro h2
  unfold pyStartsWith at h h2
  rw [hr] at h h2
  simp only [List.isPrefixOf, Bool.and_eq_true, beq_iff_eq] at h h2
  cases hrest : rest with
  | nil =>
    rw [hrest] at h
    simp [List.isPrefixOf] at h
  | cons c2 rest2 =>
    rw [hrest] at h h2
    simp only [List.isPrefixOf, Bool.and_eq_true, beq_iff_eq] at h h2
    have : ('W' : Char) = 'I' := by rw [h.2.1, ← h2.2.1]
    exact absurd this (by decide)

theorem caret_not_warn {line : String} (h : pyStartsWith line "^^^" = true) :
    pyStartsWith line "[WARN" = false := by
  obtain ⟨rest, hr⟩ := head_of_startsWith
    (show ("^^^" : String).data = '^' :: ['^', '^'] from rfl) h
  exact startsWith_false_of_head hr
    (show ("[WARN" : String).data = '[' :: ['W', 'A', 'R', 'N'] from rfl) (by decide)

theorem caret_not_info {line : String} (h : pyStartsWith line "^^^" = true) :
    pyStartsWith line "[INFO" = false := by
  obtain ⟨rest, hr⟩ := head_of_startsWith
    (show ("^^^" : String).data = '^' :: ['^', '^'] from rfl) h
  exact startsWith_false_of_head hr
    (show ("[INFO" : String).data = '[' :: ['I', 'N', 'F', 'O'] from rfl) (by decide)

theorem blank_not_warn {line : String} (h : pyStrip line = "") :
    pyStartsWith line "[WARN" = false :=
  blank_not_starts h
    (show ("[WARN" : String).data = '[' :: ['W', 'A', 'R', 'N'] from rfl) (by decide)

theorem blank_not_info {line : String} (h : pyStrip line = "") :
    pyStartsWith line "[INFO" = false :=
  blank_not_starts h
    (show ("[INFO" : String).data = '[' :: ['I', 'N', 'F', 'O'] from rfl) (by decide)

theorem redLine_closes (log_path : String) (acc : RedAcc) (line : String)
    (hp : acc.parsing = true)
    (hc : pyStartsWith line "^^^" = true ∨ pyStrip line = "") :
    redLine log_path acc line =
      ⟨acc.warnings ++ [(log_path, pyStrip (joinLines (acc.buffer ++ [line])))],
        [], false⟩ := by
  have hw : pyStartsWith line "[WARN" = false := by
    rcases hc with hc | hc
    · exact caret_not_warn hc
    · exact blank_not_warn hc
  have hi : pyStartsWith line "[INFO" = false := by
    rcases hc with hc | hc
    · exact caret_not_info hc
    · exact blank_not_info hc
  rcases hc with hc | hc <;> simp [redLine, hw, hi, hp, hc]

theorem redLine_infoFree (log_path : String) (acc : RedAcc) (line : String)
    (hw : ∀ pr ∈ acc.warnings, infoFree pr)
    (hb : ∀ l ∈ acc.buffer, pyStartsWith l "[INFO" = false) :
    (∀ pr ∈ (redLine log_path acc line).warnings, infoFree pr) ∧
      (∀ l ∈ (redLine log_path acc line).buffer, pyStartsWith l "[INFO" = false) := by
  unfold redLine
  by_cases h1 : pyStartsWith line "[WARN" = true
  · simp only [h1, if_true]
    constructor
    · intro pr hpr
      by_cases hbe : acc.buffer.isEmpty
      · simp only [hbe, if_true] at hpr
        exact hw pr hpr
      · simp only [hbe, if_false] at hpr
        rcases List.mem_append.mp hpr with hpr | hpr
        · exact hw pr hpr
        · rw [List.mem_singleton.mp hpr]
          exact ⟨acc.buffer, hb, rfl⟩
    · intro l hl
      rw [List.mem_singleton.mp hl]
      exact warn_not_info h1
  · rw [if_neg h1]
    by_cases h2 : pyStartsWith line "[INFO" = true
    · simp only [h2, if_true]
      exact ⟨hw, hb⟩
    · rw [if_neg h2]
      by_cases h3 : acc.parsing = true
      · simp only [h3, if_true]
        have hline : pyStartsWith line "[INFO" = false := by
          rw [Bool.eq_false_iff]
          exact h2
        have hbuf : ∀ l ∈ acc.buffer ++ [line], pyStartsWith l "[INFO" = false := by
          intro l hl
          rcases List.mem_append.mp hl with hl | hl
          · exact hb l hl
          · rw [List.mem_singleton.mp hl]
            exact hline
        by_cases h4 : (pyStartsWith line "^^^" || decide (pyStrip line = "")) = true
        · simp only [h4, if_true]
          constructor
          · intro pr hpr
            rcases List.mem_append.mp hpr with hpr | hpr
            · exact hw pr hpr
            · rw [List.mem_singleton.mp hpr]
              exact ⟨acc.buffer ++ [line], hbuf, rfl⟩
          · intro l hl
            simp at hl
        · simp only [h4, if_false]
          exact ⟨hw, hbuf⟩
      · simp only [h3, if_false]
        exact ⟨hw, hb⟩

theorem redFold_infoFree (log_path : String) :
    ∀ (lines : List String) (acc : RedAcc),
    (∀ pr ∈ acc.warnings, infoFree pr) →
    (∀ l ∈ acc.buffer, pyStartsWith l "[INFO" = false) →
    (∀ pr ∈ (lines.foldl (redLine log_path) acc).warnings, infoFree pr) ∧
      (∀ l ∈ (lines.foldl (redLine log_path) acc).buffer,
        pyStartsWith l "[INFO" = false)
  | [], _, hw, hb => ⟨hw, hb⟩
  | line :: lines, acc, hw, hb =>
    have h := redLine_infoFree log_path acc line hw hb
    redFold_infoFree log_path lines _ h.1 h.2

theorem redFlush_nonempty (log_path : String) (acc : RedAcc)
    (h : acc.buffer ≠ []) :
    redFlush log_path acc =
      acc.warnings ++ [(log_path, pyStrip (joinLines acc.buffer))] := by
  unfold redFlush
  simp [h]

theorem parse_redscript_infoFree (log_path : String) (lines : List String) :
    ∀ pr ∈ parse_redscript_log log_path lines, infoFree pr := by
  intro pr hpr
  unfold parse_redscript_log at hpr
  have h := redFold_infoFree log_path lines ⟨[], [], false⟩
    (by intro pr h; simp at h) (by intro l h; simp at h)
  unfold redFlush at hpr
  split at hpr
  · exact h.1 pr hpr
  · rcases List.mem_append.mp hpr with hpr | hpr
    · exact h.1 pr hpr
    · rw [List.mem_singleton.mp hpr]
      exact ⟨(lines.foldl (redLine log_path) ⟨[], [], false⟩).buffer, h.2, rfl⟩

theorem Heap.read_write_ne (h : Heap) {a b : Nat} (hne : a ≠ b) (v : List String) :
    (h.write a v).read b = h.read b := by
  unfold Heap.read Heap.write
  simp [List.getD, List.getElem?_set_ne hne]

theorem Heap.read_write_self (h : Heap) {a : Nat} (ha : a < h.cells.length)
    (v : List String) : (h.write a v).read a = v := by
  unfold Heap.read Heap.write
  simp [List.getD, List.getElem?_set_self, ha]

theorem Heap.write_length (h : Heap) (a : Nat) (v : List String) :
    (h.write a v).cells.length = h.cells.length := by
  unfold Heap.write
  simp

theorem Heap.read_alloc_lt (h : Heap) {a : Nat} (ha : a < h.cells.length)
    (v : List String) : (h.alloc v).1.read a = h.read a := by
  unfold Heap.read Heap.alloc
  simp [List.getD, List.getElem?_append_left ha]

theorem Heap.read_alloc_self (h : Heap) (v : List String) :
    (h.alloc v).1.read h.cells.length = v := by
  unfold Heap.read Heap.alloc
  simp [List.getD]

theorem Heap.alloc_length (h : Heap) (v : List String) :
    (h.alloc v).1.cells.length = h.cells.length + 1 := by
  unfold Heap.alloc
  simp

theorem applyPrioHeap_read_ne :
    ∀ (prio : List (String × List String)) (h : Heap) (a b : Nat), a ≠ b →
    (applyPrioHeap h a prio).read b = h.read b
  | [], _, _, _, _ => rfl
  | (t, ms) :: prio, h, a, b, hne => by
    simp only [applyPrioHeap]
    rw [applyPrioHeap_read_ne prio _ a b hne, Heap.read_write_ne h hne]

theorem applyPrioHeap_length :
    ∀ (prio : List (String × List String)) (h : Heap) (a : Nat),
    (applyPrioHeap h a prio).cells.length = h.cells.length
  | [], _, _ => rfl
  | (t, ms) :: prio, h, a => by
    simp only [applyPrioHeap]
    rw [applyPrioHeap_length prio _ a, Heap.write_length]

theorem applyPrioHeap_read_self :
    ∀ (prio : List (String × List String)) (h : Heap) (a : Nat),
    a < h.cells.length →
    (applyPrioHeap h a prio).read a = LoadOrderSorter.applyPrio (h.read a) prio
  | [], _, _, _ => rfl
  | (t, ms) :: prio, h, a, ha => by
    simp only [applyPrioHeap, LoadOrderSorter.applyPrio]
    rw [applyPrioHeap_read_self prio _ a (by rw [Heap.write_length]; exact ha),
      Heap.read_write_self h ha]

/-- Claim C3, as stated, is false on the code: the `^^^` closing-marker
line is appended to `warning_lines` before the block is emitted, so the
first block's text is `"[WARN] issue A\ndetail\n^^^"`, not
`"[WARN] issue A\ndetail"`.  This counterexample evaluates the
redscript parser on the claim's own input. -/
theorem claim_C3_counterexample :
    parse_redscript_log "redscript_rCURRENT.log"
      ["[WARN] issue A", "detail", "^^^", "[INFO] noise", "[WARN] issue B"] ≠
    [("redscript_rCURRENT.log", "[WARN] issue A\ndetail"),
     ("redscript_rCURRENT.log", "[WARN] issue B")] := by decide

/-- Claim C3 (amended): on the example input the redscript parser emits
exactly two warning blocks, in order, with texts
`"[WARN] issue A\ndetail\n^^^"` (the closing-marker line is part of the
emitted block; a blank closing line disappears under the final strip)
and `"[WARN] issue B"`; for every input, `[INFO]`-prefixed lines never
appear in any emitted block; a block closes and is emitted when a `^^^`
closing-marker line or a blank/whitespace-only line is seen while a
block is open, and at end of input a non-empty open block is emitted. -/
theorem claim_C3_amended :
    (parse_redscript_log "redscript_rCURRENT.log"
      ["[WARN] issue A", "detail", "^^^", "[INFO] noise", "[WARN] issue B"] =
      [("redscript_rCURRENT.log", "[WARN] issue A\ndetail\n^^^"),
       ("redscript_rCURRENT.log", "[WARN] issue B")]) ∧
    (∀ (log_path : String) (lines : List String),
      ∀ pr ∈ parse_redscript_log log_path lines, infoFree pr) ∧
    (∀ (log_path : String) (acc : RedAcc) (line : String),
      acc.parsing = true →
      (pyStartsWith line "^^^" = true ∨ pyStrip line = "") →
      redLine log_path acc line =
        ⟨acc.warnings ++ [(log_path, pyStrip (joinLines (acc.buffer ++ [line])))],
          [], false⟩) ∧
    (∀ (log_path : String) (acc : RedAcc), acc.buffer ≠ [] →
      redFlush log_path acc =
        acc.warnings ++ [(log_path, pyStrip (joinLines acc.buffer))]) :=
  ⟨by decide, parse_redscript_infoFree, redLine_closes, redFlush_nonempty⟩

/-- Witness for claim C3's amended theorem: the closing-step and
end-of-input conjuncts applied at concrete states. -/
theorem claim_C3_witness :
    (redLine "p" ⟨[], ["[WARN] x"], true⟩ "^^^").warnings =
      [("p", "[WARN] x\n^^^")] ∧
    redFlush "p" ⟨[], ["[WARN] y"], true⟩ = [("p", "[WARN] y")] := by
  constructor
  · rw [claim_C3_amended.2.2.1 "p" ⟨[], ["[WARN] x"], true⟩ "^^^" rfl
      (Or.inl (by decide))]
    decide
  · rw [claim_C3_amended.2.2.2 "p" ⟨[], ["[WARN] y"], true⟩ (by decide)]
    decide

/-- Claim C4: the Entry Classifier assigns exactly one verdict per
entry, warning first: if the normalized text contains the case-sensitive
substring `"warn"` or `"warning"` the record goes to the warnings list;
otherwise, if the case-insensitive word-bounded exception pattern
matches, the record goes to the errors list; otherwise neither list
changes (clean).  The entry `"error: warning state detected"` matches
the exception pattern too, yet is classified warning. -/
theorem claim_C4 :
    (∀ (log_lines : List String) (e w : List (String × String)) (p : String),
      ((strContains (pyReplaceBar (pyStrip (joinLines log_lines))) "warn" ||
        strContains (pyReplaceBar (pyStrip (joinLines log_lines))) "warning") = true →
        evaluate_log_entry log_lines e w p =
          (e, w ++ [(p, pyReplaceBar (pyStrip (joinLines log_lines)))])) ∧
      ((strContains (pyReplaceBar (pyStrip (joinLines log_lines))) "warn" ||
        strContains (pyReplaceBar (pyStrip (joinLines log_lines))) "warning") = false →
        exceptionMatch (pyReplaceBar (pyStrip (joinLines log_lines))) = true →
        evaluate_log_entry log_lines e w p =
          (e ++ [(p, pyReplaceBar (pyStrip (joinLines log_lines)))], w)) ∧
      ((strContains (pyReplaceBar (pyStrip (joinLines log_lines))) "warn" ||
        strContains (pyReplaceBar (pyStrip (joinLines log_lines))) "warning") = false →
        exceptionMatch (pyReplaceBar (pyStrip (joinLines log_lines))) = false →
        evaluate_log_entry log_lines e w p = (e, w))) ∧
    exceptionMatch "error: warning state detected" = true ∧
    evaluate_log_entry ["error: warning state detected"] [] [] "log.txt" =
      ([], [("log.txt", "error: warning state detected")]) := by
  refine ⟨fun log_lines e w p => ?_, by decide, by decide⟩
  exact ⟨evaluate_log_entry_warn log_lines e w p,
    evaluate_log_entry_error log_lines e w p,
    evaluate_log_entry_clean log_lines e w p⟩

/-- Witness for claim C4: the warning branch applied at the precedence
example. -/
theorem claim_C4_witness :
    evaluate_log_entry ["error: warning state detected"] [] [] "log.txt" =
      ([], [("log.txt", "error: warning state detected")]) := by
  have h := (claim_C4.1 ["error: warning state detected"] [] [] "log.txt").1 (by decide)
  rw [h]
  rfl

/-- Claim C1, as stated, is false on `load_order_sorter.py`: a rule
with one absent dependent (`"z.archive"`) and one present dependent
(`"a.archive"`) is not dropped in its entirety; the present dependent
is still relocated and counted, so the result differs from the plain
alphabetical sort with overriddenCount 0 that the claim predicts. -/
theorem claim_C1_counterexample :
    LoadOrderSorter.apply_custom_mod_order_rules ["a.archive", "c.archive"]
      [("c.archive", ["z.archive", "a.archive"])] ≠
    (sort_archive_files ["a.archive", "c.archive"], 0) := by decide

/-- Claim C1 (amended): in `load_order_sorter.py` an absent dependent
is skipped individually, not the whole rule.  A rule all of whose
dependent names are absent from the artifact set contributes nothing to
overriddenCount and relocates no dependent — removing it from the rules
leaves the resolver's output unchanged, whether or not its target is
present.  In particular, for artifacts not containing `"z.archive"`
and rules `{"c.archive": ["z.archive"]}`, the result is the plain
alphabetical sort of the artifacts with overriddenCount = 0. -/
theorem claim_C1_amended :
    (∀ (artifacts : List String) (t : String) (ds : List String)
      (pre post : List (String × List String)),
      (∀ d ∈ ds, d ∉ artifacts) →
      LoadOrderSorter.apply_custom_mod_order_rules artifacts (pre ++ (t, ds) :: post) =
        LoadOrderSorter.apply_custom_mod_order_rules artifacts (pre ++ post)) ∧
    (∀ artifacts : List String, artifacts.Nodup → "z.archive" ∉ artifacts →
      LoadOrderSorter.apply_custom_mod_order_rules artifacts
        [("c.archive", ["z.archive"])] = (sort_archive_files artifacts, 0)) := by
  constructor
  · intro artifacts t ds pre post h
    exact LoadOrderSorter.resolveWithSet_skip artifacts.dedup t ds pre post
      (fun d hd hm => h d hd (List.mem_dedup.mp hm))
  · intro artifacts hnd hz
    show LoadOrderSorter.resolveWithSet artifacts.dedup _ = _
    rw [List.Nodup.dedup hnd]
    have habs := LoadOrderSorter.collectDeps_absent ["z.archive"] artifacts
      (by
        intro d hd
        rw [List.mem_singleton.mp hd]
        exact hz)
    unfold LoadOrderSorter.resolveWithSet
    simp only [LoadOrderSorter.collectRules, habs]
    simp [LoadOrderSorter.applyPrio, LoadOrderSorter.applyRule_nil]

/-- Witness for claim C1's amended theorem at concrete inputs. -/
theorem claim_C1_witness :
    LoadOrderSorter.apply_custom_mod_order_rules ["b.archive", "a.archive"]
      ([] ++ ("x.archive", ["z.archive"]) :: []) =
      LoadOrderSorter.apply_custom_mod_order_rules ["b.archive", "a.archive"]
        ([] ++ []) ∧
    LoadOrderSorter.apply_custom_mod_order_rules ["b.archive", "a.archive"]
      [("c.archive", ["z.archive"])] =
      (sort_archive_files ["b.archive", "a.archive"], 0) :=
  ⟨claim_C1_amended.1 ["b.archive", "a.archive"] "x.archive" ["z.archive"] [] []
      (by decide),
   claim_C1_amended.2 ["b.archive", "a.archive"] (by decide) (by decide)⟩

/-- Claim C2, as stated, is false on the code: re-running the resolver
on its own output re-collects and re-counts the same dependents, so the
second call's overriddenCount equals the first call's (2 here), not 0. -/
theorem claim_C2_counterexample :
    (LoadOrderSorter.apply_custom_mod_order_rules
      (LoadOrderSorter.apply_custom_mod_order_rules
        ["a.archive", "b.archive", "c.archive", "d.archive"]
        [("c.archive", ["a.archive", "b.archive"])]).1
      [("c.archive", ["a.archive", "b.archive"])]).2 ≠ 0 := by decide

/-- Claim C2 (amended): the resolver is idempotent in its order but not
in its change count: calling it again with the first call's output
order and the same rules returns exactly the first call's output — the
same final order and the same (not zero) overriddenCount, because the
dependents are collected and re-inserted into the same places again. -/
theorem claim_C2_amended (artifacts : List String)
    (rules : List (String × List String)) :
    LoadOrderSorter.apply_custom_mod_order_rules
      (LoadOrderSorter.apply_custom_mod_order_rules artifacts rules).1 rules =
    LoadOrderSorter.apply_custom_mod_order_rules artifacts rules := by
  have hperm := LoadOrderSorter.sorter_result_perm artifacts rules
  have hnd := hperm.nodup_iff.mpr (List.nodup_dedup artifacts)
  show LoadOrderSorter.resolveWithSet _ rules = LoadOrderSorter.resolveWithSet _ rules
  rw [List.Nodup.dedup hnd]
  exact LoadOrderSorter.resolveWithSet_congr rules _ _ hnd
    (List.nodup_dedup artifacts) (fun x => hperm.mem_iff)

/-- Witness for claim C2's amended theorem at a concrete input. -/
theorem claim_C2_witness :
    LoadOrderSorter.apply_custom_mod_order_rules
      (LoadOrderSorter.apply_custom_mod_order_rules
        ["a.archive", "b.archive", "c.archive", "d.archive"]
        [("c.archive", ["a.archive", "b.archive"])]).1
      [("c.archive", ["a.archive", "b.archive"])] =
    LoadOrderSorter.apply_custom_mod_order_rules
      ["a.archive", "b.archive", "c.archive", "d.archive"]
      [("c.archive", ["a.archive", "b.archive"])] :=
  claim_C2_amended ["a.archive", "b.archive", "c.archive", "d.archive"]
    [("c.archive", ["a.archive", "b.archive"])]

/-- Claim C5, as stated, is false: the two implementations of
`apply_custom_mod_order_rules` disagree.  With artifacts
`["a.archive"]` and the rule `{"c.archive": ["a.archive"]}` (target
absent), `load_order_sorter.py` still relocates and counts
`"a.archive"` (count 1), while `nexus_log_remover.py` filters the rule
out (count 0). -/
theorem claim_C5_counterexample :
    LoadOrderSorter.apply_custom_mod_order_rules ["a.archive"]
      [("c.archive", ["a.archive"])] ≠
    NexusLogRemover.apply_custom_mod_order_rules ["a.archive"]
      [("c.archive", ["a.archive"])] := by decide

/-- Claim C5 (amended): the two implementations agree on well-formed
inputs: whenever every rule's target and every dependent occur in the
artifact list and no dependent name is repeated (within a rule or
across rules), `apply_custom_mod_order_rules` of `load_order_sorter.py`
and of `nexus_log_remover.py` return the same final order and the same
overridden count. -/
theorem claim_C5_amended (artifacts : List String)
    (rules : List (String × List String))
    (hmem : ∀ r ∈ rules, r.1 ∈ artifacts ∧ ∀ d ∈ r.2, d ∈ artifacts)
    (hnd : (LoadOrderSorter.modsOf rules).Nodup) :
    LoadOrderSorter.apply_custom_mod_order_rules artifacts rules =
      NexusLogRemover.apply_custom_mod_order_rules artifacts rules := by
  have hfil : rules.filter (NexusLogRemover.ruleValid artifacts.dedup) = rules := by
    rw [List.filter_eq_self]
    intro r hr
    unfold NexusLogRemover.ruleValid
    obtain ⟨h1, h2⟩ := hmem r hr
    rw [Bool.and_eq_true, List.all_eq_true]
    refine ⟨by simp [List.mem_dedup, h1], fun d hd => ?_⟩
    simp [List.mem_dedup, h2 d hd]
  have hall := LoadOrderSorter.collectRules_all rules artifacts.dedup
    (List.nodup_dedup artifacts) hnd
    (fun r hr d hd => List.mem_dedup.mpr ((hmem r hr).2 d hd))
  unfold LoadOrderSorter.apply_custom_mod_order_rules
    NexusLogRemover.apply_custom_mod_order_rules LoadOrderSorter.resolveWithSet
  simp only [hfil, NexusLogRemover.removeDeps_eq,
    NexusLogRemover.removerInsert_eq_applyPrio, hall]

/-- Witness for claim C5's amended theorem at a concrete well-formed
input. -/
theorem claim_C5_witness :
    LoadOrderSorter.apply_custom_mod_order_rules
      ["a.archive", "b.archive", "c.archive", "d.archive"]
      [("c.archive", ["a.archive", "b.archive"])] =
    NexusLogRemover.apply_custom_mod_order_rules
      ["a.archive", "b.archive", "c.archive", "d.archive"]
      [("c.archive", ["a.archive", "b.archive"])] :=
  claim_C5_amended ["a.archive", "b.archive", "c.archive", "d.archive"]
    [("c.archive", ["a.archive", "b.archive"])] (by decide) (by decide)

/-- Claim C7: the Load Order Resolver is deterministic.  In the
embedding the resolver is a pure function, so two calls on identical
inputs are definitionally equal; the content of the spec's determinism
requirement is the absence of hash-order nondeterminism, stated here as
representation independence: running the resolver body with any
enumeration `s` of `set(artifacts)` (any duplicate-free list with the
same membership) produces exactly the output of
`apply_custom_mod_order_rules artifacts rules`. -/
theorem claim_C7 (artifacts : List String)
    (rules : List (String × List String)) (s : List String)
    (h : s.Nodup) (hm : ∀ x, x ∈ s ↔ x ∈ artifacts) :
    LoadOrderSorter.resolveWithSet s rules =
      LoadOrderSorter.apply_custom_mod_order_rules artifacts rules :=
  LoadOrderSorter.resolveWithSet_congr rules s artifacts.dedup h
    (List.nodup_dedup artifacts) (fun x => (hm x).trans List.mem_dedup.symm)

/-- Witness for claim C7: two different enumerations of the same
two-element set resolve identically. -/
theorem claim_C7_witness :
    LoadOrderSorter.resolveWithSet ["b.archive", "a.archive"]
      [("b.archive", ["a.archive"])] =
    LoadOrderSorter.apply_custom_mod_order_rules ["a.archive", "b.archive"]
      [("b.archive", ["a.archive"])] :=
  claim_C7 ["a.archive", "b.archive"] [("b.archive", ["a.archive"])]
    ["b.archive", "a.archive"] (by decide) (fun x => by simp [or_comm])

/-- Claim C9: for pairwise-distinct artifacts and rules whose dependent
lists are duplicate-free, the final order of
`apply_custom_mod_order_rules` in `load_order_sorter.py` is a
permutation of the input: every input name occurs exactly once, no
foreign name occurs, and the length is preserved. -/
theorem claim_C9 (artifacts : List String)
    (rules : List (String × List String)) (hart : artifacts.Nodup)
    (hrules : ∀ r ∈ rules, r.2.Nodup) :
    (∀ a ∈ artifacts,
      (LoadOrderSorter.apply_custom_mod_order_rules artifacts rules).1.count a = 1) ∧
    (∀ a, a ∉ artifacts →
      (LoadOrderSorter.apply_custom_mod_order_rules artifacts rules).1.count a = 0) ∧
    (LoadOrderSorter.apply_custom_mod_order_rules artifacts rules).1.length =
      artifacts.length := by
  have hperm := LoadOrderSorter.sorter_result_perm artifacts rules
  rw [List.Nodup.dedup hart] at hperm
  refine ⟨?_, ?_, hperm.length_eq⟩
  · intro a ha
    rw [hperm.count_eq]
    exact List.count_eq_one_of_mem hart ha
  · intro a ha
    rw [hperm.count_eq]
    exact List.count_eq_zero.mpr ha

/-- Witness for claim C9 at a concrete input. -/
theorem claim_C9_witness :
    (LoadOrderSorter.apply_custom_mod_order_rules
      ["b.archive", "a.archive", "c.archive"]
      [("c.archive", ["b.archive"])]).1.count "b.archive" = 1 :=
  (claim_C9 ["b.archive", "a.archive", "c.archive"] [("c.archive", ["b.archive"])]
    (by decide) (by decide)).1 "b.archive" (by decide)

/-- Claim C6: the standard Entry Segmenter emits, on each
timestamp-boundary line with a non-empty buffer, the buffered group as
a completed (classified) entry before starting a new buffer holding the
boundary line; at end of input a non-empty remaining buffer is
classified as a final entry.  On the three-line example the segmenter
produces exactly two entries; the first (`"...started\n  detail line"`)
is clean (classifies into neither list) and the second
(`"...warning: low memory"`) is a warning. -/
theorem claim_C6 :
    (∀ (log_path : String) (acc : ParseAcc) (line : String),
      isTimestampLine line = true → acc.buffer ≠ [] →
      logLineStep log_path acc line =
        ⟨(evaluate_log_entry acc.buffer acc.errors acc.warnings log_path).1,
         (evaluate_log_entry acc.buffer acc.errors acc.warnings log_path).2,
         [line]⟩) ∧
    (∀ (log_path : String) (lines : List String),
      (lines.foldl (logLineStep log_path) ⟨[], [], []⟩).buffer ≠ [] →
      parse_log_entries log_path lines =
        evaluate_log_entry
          (lines.foldl (logLineStep log_path) ⟨[], [], []⟩).buffer
          (lines.foldl (logLineStep log_path) ⟨[], [], []⟩).errors
          (lines.foldl (logLineStep log_path) ⟨[], [], []⟩).warnings log_path) ∧
    segmentEntries
      ["[2024-01-01 00:00:00] started", "  detail line",
       "[2024-01-01 00:00:01] warning: low memory"] =
      [["[2024-01-01 00:00:00] started", "  detail line"],
       ["[2024-01-01 00:00:01] warning: low memory"]] ∧
    parse_log_entries "p"
      ["[2024-01-01 00:00:00] started", "  detail line",
       "[2024-01-01 00:00:01] warning: low memory"] =
      ([], [("p", "[2024-01-01 00:00:01] warning: low memory")]) ∧
    (∀ (e w : List (String × String)) (p : String),
      evaluate_log_entry ["[2024-01-01 00:00:00] started", "  detail line"]
        e w p = (e, w)) ∧
    (∀ (e w : List (String × String)) (p : String),
      evaluate_log_entry ["[2024-01-01 00:00:01] warning: low memory"] e w p =
        (e, w ++ [(p, "[2024-01-01 00:00:01] warning: low memory")])) := by
  refine ⟨?_, ?_, by decide, by decide, ?_, ?_⟩
  · intro log_path acc line h1 h2
    have hne : acc.buffer.isEmpty = false := by
      rw [List.isEmpty_eq_false]
      exact h2
    simp [logLineStep, h1, hne]
  · intro log_path lines h
    have hne : (lines.foldl (logLineStep log_path) ⟨[], [], []⟩).buffer.isEmpty
        = false := by
      rw [List.isEmpty_eq_false]
      exact h
    simp [parse_log_entries, hne]
  · intro e w p
    exact evaluate_log_entry_clean _ e w p (by decide) (by decide)
  · intro e w p
    have h := evaluate_log_entry_warn
      ["[2024-01-01 00:00:01] warning: low memory"] e w p (by decide)
    rw [h]
    rfl

/-- Witness for claim C6: the boundary step at a concrete state and
line. -/
theorem claim_C6_witness :
    (logLineStep "p" ⟨[], [], ["[2024-01-01 00:00:00] x"]⟩
      "[2024-01-01 00:00:01] y").buffer = ["[2024-01-01 00:00:01] y"] := by
  rw [claim_C6.1 "p" ⟨[], [], ["[2024-01-01 00:00:00] x"]⟩
    "[2024-01-01 00:00:01] y" (by decide) (by decide)]

/-- Claim C8: a path whose file does not exist is recorded in the
missing collection; all other outputs of `process_logs` (totals
processed, exception/warning/clean counts, and the error, warning and
clean category lists) are exactly those of the run without that path,
so the missing file contributes to nothing else and does not abort
processing of the remaining files. -/
theorem claim_C8 (fs : String → Option (List String)) (pre post : List String)
    (p : String) (h : fs p = none) :
    p ∈ (process_logs fs (pre ++ p :: post)).missing_logs ∧
      agreeExceptMissing (process_logs fs (pre ++ p :: post))
        (process_logs fs (pre ++ post)) := by
  unfold process_logs
  rw [List.foldl_append, List.foldl_append, List.foldl_cons]
  rw [processOne_missing fs _ p h]
  constructor
  · apply foldl_processOne_missing_mono
    simp
  · apply foldl_processOne_agree
    exact ⟨rfl, rfl, rfl, rfl, rfl, rfl, rfl⟩

/-- Witness for claim C8: a one-path run over an empty file system
records the path as missing. -/
theorem claim_C8_witness :
    "missing.log" ∈ (process_logs (fun _ => none)
      ([] ++ "missing.log" :: [])).missing_logs :=
  (claim_C8 (fun _ => none) [] [] "missing.log" rfl).1

/-- Claim C10: the resolver of `load_order_sorter.py` does not mutate
its caller-owned input.  In the heap model, where the input artifact
list is a heap cell and the reinsertion loop's `insert`/`extend` are
in-place writes, the run leaves the cell at `inAddr` unchanged, returns
a freshly allocated address distinct from `inAddr`, and that fresh cell
holds exactly the order computed by the pure
`apply_custom_mod_order_rules`, with the same count. -/
theorem claim_C10 (h : Heap) (inAddr : Nat)
    (rules : List (String × List String)) (ha : inAddr < h.cells.length) :
    (sorterResolveOnHeap h inAddr rules).1.read inAddr = h.read inAddr ∧
    (sorterResolveOnHeap h inAddr rules).2.1 ≠ inAddr ∧
    (sorterResolveOnHeap h inAddr rules).1.read
        (sorterResolveOnHeap h inAddr rules).2.1 =
      (LoadOrderSorter.apply_custom_mod_order_rules (h.read inAddr) rules).1 ∧
    (sorterResolveOnHeap h inAddr rules).2.2 =
      (LoadOrderSorter.apply_custom_mod_order_rules (h.read inAddr) rules).2 := by
  have hne : h.cells.length ≠ inAddr :=
    fun he => absurd (he ▸ ha) (Nat.lt_irrefl _)
  have halloc2 : ∀ v : List String, (h.alloc v).2 = h.cells.length := fun _ => rfl
  simp only [sorterResolveOnHeap, halloc2]
  refine ⟨?_, ?_, ?_, rfl⟩
  · rw [applyPrioHeap_read_ne _ _ _ _ hne]
    exact Heap.read_alloc_lt h ha _
  · exact hne
  · rw [applyPrioHeap_read_self _ _ _ (by rw [Heap.alloc_length]; omega)]
    rw [Heap.read_alloc_self]
    rfl

/-- Witness for claim C10: a two-element list at address 0 is unchanged
by a resolver run that relocates one of its elements. -/
theorem claim_C10_witness :
    (sorterResolveOnHeap ⟨[["b.archive", "a.archive"]]⟩ 0
      [("b.archive", ["a.archive"])]).1.read 0 = ["b.archive", "a.archive"] := by
  rw [(claim_C10 ⟨[["b.archive", "a.archive"]]⟩ 0 [("b.archive", ["a.archive"])]
    (by decide)).1]
  decide
